import Mathlib

/-!
Shallow embedding of `src/sidebar/util/build-thread.js`.

The source builds a discussion-thread tree from a flat list of annotation
records.  The JS `threads` object is modelled as an association list in
key-insertion order (matching `for...in` over non-index string keys); the JS
tree nodes are the map objects themselves, mutated in place, so children are
recorded here by id (`childIds`, in push order) and the output tree is
materialised from the map once assembly is finished, at the point where the
source stops mutating shared objects.  JavaScript truthiness of string
fields (`undefined` and `""` are falsy) is modelled explicitly.  The two
recursions of the source that are not structurally bounded (the
`hasPathToRoot` ancestor walk, which diverges on a self-parent node, and the
traversal of the assembled graph) are given explicit fuel; a `none` result
models a call that does not complete.
-/

/-- An input record as consumed by `buildThread`: optional server-assigned
`id`, client-side `$tag` (field `tag` here), optional ordered ancestor list
`references` (nearest ancestor last) and creation timestamp `created`. -/
structure Annotation where
  id : Option String
  tag : String
  references : Option (List String)
  created : String

/-- JavaScript truthiness of an optional string field: `undefined` (`none`)
and the empty string are falsy. -/
def optStrTruthy : Option String → Bool
  | none => false
  | some s => s != ""

/-- `annotationId(annotation)`: `annotation.id || annotation.$tag`. -/
def annotationId (a : Annotation) : String :=
  match a.id with
  | some i => if i = "" then a.tag else i
  | none => a.tag

/-- `(annotation.references || []).filter(id => id !== annotation.id)`.
The filter compares each entry to the raw `id` property, not to
`annotationId`; when `id` is `undefined` nothing is removed. -/
def filteredReferences (a : Annotation) : List String :=
  match a.id with
  | some i => (a.references.getD []).filter (fun r => r != i)
  | none => a.references.getD []

/-- A node of the `threads` map built by `threadAnnotations`, holding the
fields of `DEFAULT_THREAD_STATE` plus `id`, the optional source record and
the parent/children links. -/
structure ThreadNode where
  id : String
  anno : Option Annotation
  parent : Option String
  childIds : List String
  visible : Bool
  collapsed : Bool
  replyCount : Nat
  depth : Int

/-- The `threads` object: association list in key-insertion order. -/
abbrev Threads := List (String × ThreadNode)

/-- `threads[k]` read. -/
def getTh (threads : Threads) (k : String) : Option ThreadNode :=
  (threads.find? (fun p => p.1 == k)).map (fun p => p.2)

/-- `threads[k] = v`: overwrite in place when the key exists, append a new
key otherwise (new keys iterate last in `for...in`). -/
def setTh (threads : Threads) (k : String) (v : ThreadNode) : Threads :=
  match threads with
  | [] => [(k, v)]
  | p :: ps => if p.1 = k then (k, v) :: ps else p :: setTh ps k v

/-- In-place mutation of the node stored at key `k`, if present. -/
def modifyTh (threads : Threads) (k : String) (f : ThreadNode → ThreadNode) : Threads :=
  threads.map (fun p => if p.1 = k then (p.1, f p.2) else p)

/-- `{...DEFAULT_THREAD_STATE, children: [], annotation, id}`. -/
def mkAnnotationNode (a : Annotation) (id : String) : ThreadNode :=
  { id := id, anno := some a, parent := none, childIds := [],
    visible := true, collapsed := false, replyCount := 0, depth := 0 }

/-- `{...DEFAULT_THREAD_STATE, children: [], id: parentId}`: the placeholder
for a referenced but missing ancestor. -/
def mkPlaceholderNode (id : String) : ThreadNode :=
  { id := id, anno := none, parent := none, childIds := [],
    visible := true, collapsed := false, replyCount := 0, depth := 0 }

/-- `hasPathToRoot(threads, id, ancestorId)`: walk `parent` links upward from
`ancestorId`; `false` when a step is missing or a visited node's parent is
`id` itself, `true` on reaching a node with a falsy parent.  The walk of the
source is unbounded recursion; `fuel` bounds it here and `none` models a
call that never returns. -/
def hasPathToRoot (threads : Threads) (id : String) (ancestorId : String) : Nat → Option Bool
  | 0 => none
  | fuel + 1 =>
    match getTh threads ancestorId with
    | none => some false
    | some ancestor =>
      if ancestor.parent = some id then some false
      else
        match ancestor.parent with
        | none => some true
        | some p => if p = "" then some true else hasPathToRoot threads id p fuel

/-- `setParent(threads, id, parents)`: attach the thread `id` to the last
entry of `parents`, synthesising (and recursively attaching) a placeholder
when that entry is missing, guarded by `hasPathToRoot`.  `fuel` bounds both
the placeholder recursion (in the source bounded by the length of `parents`,
which strictly shrinks) and the embedded ancestor walk; `none` models a call
that does not complete.  The `getTh threads id = none` case (the source
would throw) and the `getLast? = none` case (dead: `parents` is non-empty
there) are unreachable from `threadAnnotations`. -/
def setParent : Nat → Threads → String → List String → Option Threads
  | 0, _, _, _ => none
  | fuel + 1, threads, id, parents =>
    match getTh threads id with
    | none => none
    | some node =>
      if optStrTruthy node.parent || parents.isEmpty then some threads
      else
        match parents.getLast? with
        | none => some threads
        | some parentId =>
          let afterPlaceholder : Option Threads :=
            if (getTh threads parentId).isSome then some threads
            else setParent fuel (setTh threads parentId (mkPlaceholderNode parentId))
              parentId parents.dropLast
          match afterPlaceholder with
          | none => none
          | some threads2 =>
            match hasPathToRoot threads2 id parentId (fuel + 1) with
            | none => none
            | some true =>
              let threads3 := modifyTh threads2 id
                (fun n => { n with parent := some parentId })
              some (modifyTh threads3 parentId
                (fun n => { n with childIds := n.childIds ++ [id] }))
            | some false => some threads2

/-- The two `annotations.forEach` passes of `threadAnnotations`: create one
node per annotation keyed by its identity, then link each annotation's
thread to its filtered `references`. -/
def assembleThreads (fuel : Nat) (annotations : List Annotation) : Option Threads :=
  let threads0 := annotations.foldl
    (fun m a => setTh m (annotationId a) (mkAnnotationNode a (annotationId a))) []
  annotations.foldlM
    (fun m a => setParent fuel m (annotationId a) (filteredReferences a)) threads0

/-- A node of the output tree (the `Thread` typedef of the source).  The
`annotation` property is the `anno` of the map node. -/
structure Thread where
  id : String
  anno : Option Annotation
  parent : Option String
  visible : Bool
  collapsed : Bool
  replyCount : Nat
  depth : Int
  totalChildren : Option Nat
  children : List Thread

/-- Default value used only to project out of an `Option Thread`. -/
def dummyThread : Thread :=
  { id := "", anno := none, parent := none, visible := true,
    collapsed := false, replyCount := 0, depth := 0, totalChildren := none,
    children := [] }

instance : Inhabited Thread := ⟨dummyThread⟩

/-- Materialise the tree hanging from key `k` of the assembled map by
following `childIds` (in the source the tree nodes are the map objects
themselves).  `fuel` bounds the traversal; it can only run out on a graph
with a cycle, which the source would turn into an infinite structure. -/
def materializeThread (threads : Threads) : Nat → String → Option Thread
  | 0, _ => none
  | fuel + 1, k =>
    match getTh threads k with
    | none => none
    | some node =>
      match node.childIds.mapM (materializeThread threads fuel) with
      | none => none
      | some cs =>
        some { id := node.id, anno := node.anno,
               parent := node.parent, visible := node.visible,
               collapsed := node.collapsed, replyCount := node.replyCount,
               depth := node.depth, totalChildren := none, children := cs }

/-- `threadAnnotations(annotations)`: assemble the map, mark every node with
a falsy parent collapsed and collect these as children of the synthetic
root `{...DEFAULT_THREAD_STATE, id: 'root', children: rootThreads}`. -/
def threadAnnotations (fuel : Nat) (annotations : List Annotation) : Option Thread :=
  match assembleThreads fuel annotations with
  | none => none
  | some threads =>
    let rootIds := (threads.map (fun p => p.1)).filter (fun k =>
      match getTh threads k with
      | some node => !optStrTruthy node.parent
      | none => false)
    let threads2 := rootIds.foldl
      (fun m k => modifyTh m k (fun n => { n with collapsed := true })) threads
    match rootIds.mapM (materializeThread threads2 fuel) with
    | none => none
    | some rootThreads =>
      some { id := "root", anno := none, parent := none, visible := true,
             collapsed := false, replyCount := 0, depth := 0, totalChildren := none,
             children := rootThreads }

/-- `mapThread(thread, mapFn)`: a copy of `mapFn(thread)` whose children are
the recursively mapped children of the ORIGINAL thread. -/
def mapThread (thread : Thread) (mapFn : Thread → Thread) : Thread :=
  { mapFn thread with
    children := thread.children.attach.map (fun c => mapThread c.1 mapFn) }
termination_by thread
decreasing_by
  have hs := List.sizeOf_lt_of_mem c.2
  cases thread
  simp at hs ⊢
  omega

/-- `countRepliesAndDepth(thread, depth)`: recompute `depth` and `replyCount`
bottom-up; `replyCount` is the reduce with `(total, child) => total + 1 +
child.replyCount` over the recomputed children. -/
def countRepliesAndDepth (thread : Thread) (depth : Int) : Thread :=
  let children := thread.children.attach.map
    (fun c => countRepliesAndDepth c.1 (depth + 1))
  { thread with children := children
                , depth := depth
                , replyCount :=
                  children.foldl (fun total child => total + 1 + child.replyCount) 0 }
termination_by thread
decreasing_by
  have hs := List.sizeOf_lt_of_mem c.2
  cases thread
  simp at hs ⊢
  omega

/-- `hasVisibleChildren(thread)`: some descendant is visible. -/
def hasVisibleChildren (thread : Thread) : Bool :=
  thread.children.attach.any (fun c => c.1.visible || hasVisibleChildren c.1)
termination_by thread
decreasing_by
  have hs := List.sizeOf_lt_of_mem c.2
  cases thread
  simp at hs ⊢
  omega

/-- The comparator that `sort` hands to `Array.prototype.sort`: threads with
no annotation sort to the top (two of them compare equal); two annotated
threads compare by the supplied less-than predicate, tried in the order
`compareFn(a, b)` then `compareFn(b, a)`. -/
def threadCompare (compareFn : Annotation → Annotation → Bool) (a b : Thread) : Int :=
  match a.anno, b.anno with
  | none, none => 0
  | none, some _ => -1
  | some _, none => 1
  | some x, some y => if compareFn x y then -1 else if compareFn y x then 1 else 0

/-- One step of a stable sort: `x` is placed before the first already-placed
element that it strictly precedes, after all earlier ones. -/
def sortInsert (compareFn : Annotation → Annotation → Bool) :
    List Thread → Thread → List Thread
  | [], x => [x]
  | y :: ys, x =>
    if threadCompare compareFn x y < 0 then x :: y :: ys
    else y :: sortInsert compareFn ys x

/-- `sort(threads, compareFn)`: `Array.prototype.sort` is required to be
stable, so it is modelled as a stable (insertion) sort over the embedded
comparator. -/
def sort (threads : List Thread) (compareFn : Annotation → Annotation → Bool) :
    List Thread :=
  threads.foldl (sortInsert compareFn) []

/-- `sortThread(thread, compareFn, replyCompareFn)`: children are first
recursively sorted (replies use `replyCompareFn` at every level below the
top), then this node's own list is sorted with `compareFn`. -/
def sortThread (thread : Thread)
    (compareFn replyCompareFn : Annotation → Annotation → Bool) : Thread :=
  { thread with
    children := sort
      (thread.children.attach.map (fun c => sortThread c.1 replyCompareFn replyCompareFn))
      compareFn }
termination_by thread
decreasing_by
  have hs := List.sizeOf_lt_of_mem c.2
  cases thread
  simp at hs ⊢
  omega

/-- The `Options` bag of `buildThread` with the defaults of `defaultOpts`:
empty selection, empty forced-visible list, no annotation or thread filter,
no explicit expansion map, top-level sort by `$tag`, reply sort by creation
time. -/
structure Options where
  selected : List String := []
  forcedVisible : List String := []
  filterFn : Option ( Annotation → Bool) := none
  threadFilterFn : Option (Thread → Bool) := none
  expanded : List (String × Bool) := []
  sortCompareFn : Annotation → Annotation → Bool := fun a b => decide (a.tag < b.tag)
  replySortCompareFn : Annotation → Annotation → Bool := fun a b => decide (a.created < b.created)

/-- `{...defaultOpts}`. -/
def defaultOptions : Options := {}

/-- `opts.expanded.hasOwnProperty(id)` / `opts.expanded[id]`. -/
def lookupExpanded (expanded : List (String × Bool)) (k : String) : Option Bool :=
  (expanded.find? (fun p => p.1 == k)).map (fun p => p.2)

/-- The visibility map function of `buildThread`: threads without an
annotation are never visible; under an annotation filter a thread is visible
when its tag is forced visible, else when the filter accepts its
annotation; with no filter the current value is kept. -/
def visibilityFn (opts : Options) (thread : Thread) : Thread :=
  let threadIsVisible :=
    match thread.anno with
    | none => false
    | some ann =>
      match opts.filterFn with
      | none => thread.visible
      | some filterFn =>
        if !opts.forcedVisible.isEmpty && opts.forcedVisible.contains ann.tag then true
        else filterFn ann
  { thread with visible := threadIsVisible }

/-- The collapsed-state map function of `buildThread`: an explicit entry of
`expanded` wins; otherwise the thread stays as it was unless an annotation
filter is active and some descendant is visible, which forces expansion. -/
def collapseFn (opts : Options) (thread : Thread) : Thread :=
  match lookupExpanded opts.expanded thread.id with
  | some b => { thread with collapsed := !b }
  | none =>
    let hasUnfilteredChildren := opts.filterFn.isSome && hasVisibleChildren thread
    { thread with collapsed := thread.collapsed && !hasUnfilteredChildren }

/-- The selection filter of `buildThread` (`if (hasSelection)`): when
`opts.selected` is non-empty, keep only root children that are selected or
forced visible. -/
def selectionStage (opts : Options) (thread : Thread) : Thread :=
  if !opts.selected.isEmpty then
    { thread with children := thread.children.filter (fun child =>
        opts.selected.contains child.id ||
        (!opts.forcedVisible.isEmpty &&
          match child.anno with
          | some ann => opts.forcedVisible.contains ann.tag
          | none => false)) }
  else thread

/-- The thread-level filter of `buildThread` (`if (opts.threadFilterFn)`). -/
def threadFilterStage (opts : Options) (thread : Thread) : Thread :=
  match opts.threadFilterFn with
  | some threadFilterFn =>
    { thread with children := thread.children.filter threadFilterFn }
  | none => thread

/-- The top-level pruning of `buildThread`: drop root children that are
invisible and have no visible descendant. -/
def pruneStage (thread : Thread) : Thread :=
  { thread with
    children := thread.children.filter
                  (fun child => child.visible || hasVisibleChildren child) }

/-- `buildThread(annotations, options)`: thread assembly, selection filter,
thread-level filter, visibility pass, top-level pruning, collapse pass,
recursive sort, reply-count/depth recomputation, `totalChildren`. -/
def buildThread (fuel : Nat) (annotations : List Annotation) (opts : Options) :
    Option Thread :=
  match threadAnnotations fuel annotations with
  | none => none
  | some thread0 =>
    let thread2 := threadFilterStage opts (selectionStage opts thread0)
    let thread3 := mapThread thread2 (visibilityFn opts)
    let thread4 := pruneStage thread3
    let thread5 := mapThread thread4 (collapseFn opts)
    let thread6 := sortThread thread5 opts.sortCompareFn opts.replySortCompareFn
    let thread7 := countRepliesAndDepth thread6 (-1)
    some { thread7 with totalChildren := some thread7.children.length }

/-- Every node of the tree: the node itself followed by the subthreads of
its children, in pre-order. -/
def subthreads (thread : Thread) : List Thread :=
  thread :: (thread.children.attach.map (fun c => subthreads c.1)).flatten
termination_by thread
decreasing_by
  have hs := List.sizeOf_lt_of_mem c.2
  cases thread
  simp at hs ⊢
  omega

/-- All strict descendants of a node, in pre-order. -/
def strictDescendants (thread : Thread) : List Thread :=
  (thread.children.map subthreads).flatten

/-! Concrete inputs used to instantiate individual claims. -/

/-- An unsaved annotation (no server id) whose `references` list names its
own `$tag`: the self-reference filter compares to `id` only, so the entry
survives. -/
def selfTagAnn : Annotation :=
  { id := none, tag := "t", references := some ["t"], created := "" }

/-- A saved annotation replying to the thread of `selfTagAnn`. -/
def otherAnn : Annotation :=
  { id := some "y", tag := "ty", references := some ["t"], created := "" }

/-- The `threads` map after `selfTagAnn` has been processed: its node is its
own parent and its own child. -/
def selfLoopThreads : Threads :=
  [("t", { id := "t", anno := some selfTagAnn, parent := some "t", childIds := ["t"],
           visible := true, collapsed := false, replyCount := 0, depth := 0 }),
   ("y", mkAnnotationNode otherAnn "y")]

/-- Annotation A of the two-element reference cycle: A replies to B. -/
def cycA : Annotation :=
  { id := some "a", tag := "ta", references := some ["b"], created := "c1" }

/-- Annotation B of the two-element reference cycle: B replies to A. -/
def cycB : Annotation :=
  { id := some "b", tag := "tb", references := some ["a"], created := "c2" }

/-- A reply whose referenced parent id "m" is absent from the input. -/
def c6Reply : Annotation :=
  { id := some "r", tag := "tr", references := some ["m"], created := "c1" }

/-- Top of a three-level chain. -/
def chainA1 : Annotation :=
  { id := some "a1", tag := "t1", references := none, created := "1" }

/-- Reply to `chainA1`. -/
def chainA2 : Annotation :=
  { id := some "a2", tag := "t2", references := some ["a1"], created := "2" }

/-- Reply to `chainA2` (grandchild of `chainA1`). -/
def chainA3 : Annotation :=
  { id := some "a3", tag := "t3", references := some ["a1", "a2"], created := "3" }

/-- Top-level annotation with `$tag` "b", listed first. -/
def tagB : Annotation :=
  { id := none, tag := "b", references := none, created := "x" }

/-- Top-level annotation with `$tag` "a", listed second. -/
def tagA : Annotation :=
  { id := none, tag := "a", references := none, created := "x" }

/-- A parent annotation with two replies. -/
def repP : Annotation :=
  { id := some "p", tag := "tp", references := none, created := "0" }

/-- Reply to `repP`, listed first, created later. -/
def repR1 : Annotation :=
  { id := some "r1", tag := "u1", references := some ["p"], created := "2" }

/-- Reply to `repP`, listed second, created earlier. -/
def repR2 : Annotation :=
  { id := some "r2", tag := "u2", references := some ["p"], created := "1" }

/-- Top-level annotation whose `$tag` is in `forcedVisible`. -/
def fvX : Annotation :=
  { id := some "x", tag := "t1", references := none, created := "1" }

/-- Reply to `fvX`, rejected by the filter. -/
def fvZ : Annotation :=
  { id := some "z", tag := "t3", references := some ["x"], created := "2" }

/-- Top-level annotation rejected by the filter and not forced visible. -/
def fvY : Annotation :=
  { id := some "y", tag := "t2", references := none, created := "3" }

/-- Options of the forced-visible scenario: a filter `f` plus the `$tag` of
`fvX` in `forcedVisible`. -/
def fvOptions (f : Annotation → Bool) : Options :=
  { forcedVisible := ["t1"], filterFn := some f }

/-- The tree returned for `[fvX, fvZ, fvY]` under `fvOptions` with an
all-rejecting filter: only the forced-visible thread "x" survives at top
level, visible, with its filtered-out reply "z" invisible below it. -/
def fvExpected : Thread :=
  Thread.mk "root" none none false false 2 (-1) (some 1)
    [Thread.mk "x" (some fvX) none true true 1 0 none
      [Thread.mk "z" (some fvZ) (some "x") false false 0 1 none []]]

/-- An unsaved annotation whose `references` list is the single empty
string. -/
def emptyRefAnn : Annotation :=
  { id := none, tag := "x", references := some [""], created := "1" }

/-- The tree returned for the three-level chain `[chainA1, chainA2,
chainA3]` under default options: depths 0, 1, 2 below the root. -/
def chainExpected : Thread :=
  Thread.mk "root" none none false false 3 (-1) (some 1)
    [Thread.mk "a1" (some chainA1) none true true 2 0 none
      [Thread.mk "a2" (some chainA2) (some "a1") true false 1 1 none
        [Thread.mk "a3" (some chainA3) (some "a2") true false 0 2 none []]]]

theorem mapThread_eq (thread : Thread) (mapFn : Thread → Thread) :
    mapThread thread mapFn =
      { mapFn thread with
        children := thread.children.map (fun c => mapThread c mapFn) } := by
  rw [mapThread]
  rw [List.attach_map_val thread.children (fun c => mapThread c mapFn)]

theorem countRepliesAndDepth_eq (thread : Thread) (depth : Int) :
    countRepliesAndDepth thread depth =
      { thread with
        children := thread.children.map (fun c => countRepliesAndDepth c (depth + 1))
        , depth := depth
        , replyCount :=
          (thread.children.map (fun c => countRepliesAndDepth c (depth + 1))).foldl
            (fun total child => total + 1 + child.replyCount) 0 } := by
  rw [countRepliesAndDepth]
  rw [List.attach_map_val thread.children (fun c => countRepliesAndDepth c (depth + 1))]

theorem attach_any_eq {α : Type} (l : List α) (f : α → Bool) :
    l.attach.any (fun c => f c.1) = l.any f := by
  apply Bool.eq_iff_iff.mpr
  simp only [List.any_eq_true]
  constructor
  · rintro ⟨⟨x, hx⟩, hmem, hfx⟩
    exact ⟨x, hx, hfx⟩
  · rintro ⟨x, hx, hfx⟩
    exact ⟨⟨x, hx⟩, List.mem_attach _ _, hfx⟩

theorem hasVisibleChildren_eq (thread : Thread) :
    hasVisibleChildren thread =
      thread.children.any (fun c => c.visible || hasVisibleChildren c) := by
  rw [hasVisibleChildren]
  rw [attach_any_eq thread.children (fun c => c.visible || hasVisibleChildren c)]

theorem sortThread_eq (thread : Thread)
    (compareFn replyCompareFn : Annotation → Annotation → Bool) :
    sortThread thread compareFn replyCompareFn =
      { thread with
        children := sort
          (thread.children.map (fun c => sortThread c replyCompareFn replyCompareFn))
          compareFn } := by
  rw [sortThread]
  rw [List.attach_map_val thread.children
    (fun c => sortThread c replyCompareFn replyCompareFn)]

theorem subthreads_eq (thread : Thread) :
    subthreads thread = thread :: (thread.children.map subthreads).flatten := by
  rw [subthreads]
  rw [List.attach_map_val thread.children subthreads]

/-- Induction over a thread tree: to prove `P` everywhere it suffices to
prove it at each node assuming it for all children. -/
theorem threadInd (P : Thread → Prop)
    (step : ∀ t : Thread, (∀ c ∈ t.children, P c) → P t) : ∀ t, P t := by
  have key : ∀ (n : Nat) (t : Thread), sizeOf t ≤ n → P t := by
    intro n
    induction n with
    | zero =>
      intro t ht
      exact absurd ht (by cases t; simp)
    | succ n ih =>
      intro t ht
      refine step t (fun c hc => ih c ?_)
      have hs := List.sizeOf_lt_of_mem hc
      cases t
      simp at hs ht ⊢
      omega
  exact fun t => key (sizeOf t) t le_rfl

/-! Constructor-headed forms of the recursion equations, used to evaluate
the tree passes on concrete trees. -/

theorem mapThread_mk (id : String) (ann : Option Annotation) (par : Option String)
    (vis col : Bool) (rc : Nat) (d : Int) (tc : Option Nat) (cs : List Thread)
    (mapFn : Thread → Thread) :
    mapThread (Thread.mk id ann par vis col rc d tc cs) mapFn =
      { mapFn (Thread.mk id ann par vis col rc d tc cs) with
        children := cs.map (fun c => mapThread c mapFn) } := by
  rw [mapThread_eq]

theorem countRepliesAndDepth_mk (id : String) (ann : Option Annotation)
    (par : Option String) (vis col : Bool) (rc : Nat) (d : Int) (tc : Option Nat)
    (cs : List Thread) (depth : Int) :
    countRepliesAndDepth (Thread.mk id ann par vis col rc d tc cs) depth =
      Thread.mk id ann par vis col
        ((cs.map (fun c => countRepliesAndDepth c (depth + 1))).foldl
          (fun total child => total + 1 + child.replyCount) 0)
        depth tc (cs.map (fun c => countRepliesAndDepth c (depth + 1))) := by
  rw [countRepliesAndDepth_eq]

theorem hasVisibleChildren_mk (id : String) (ann : Option Annotation)
    (par : Option String) (vis col : Bool) (rc : Nat) (d : Int) (tc : Option Nat)
    (cs : List Thread) :
    hasVisibleChildren (Thread.mk id ann par vis col rc d tc cs) =
      cs.any (fun c => c.visible || hasVisibleChildren c) := by
  rw [hasVisibleChildren_eq]

theorem sortThread_mk (id : String) (ann : Option Annotation) (par : Option String)
    (vis col : Bool) (rc : Nat) (d : Int) (tc : Option Nat) (cs : List Thread)
    (compareFn replyCompareFn : Annotation → Annotation → Bool) :
    sortThread (Thread.mk id ann par vis col rc d tc cs) compareFn replyCompareFn =
      Thread.mk id ann par vis col rc d tc
        (sort (cs.map (fun c => sortThread c replyCompareFn replyCompareFn)) compareFn) := by
  rw [sortThread_eq]

theorem subthreads_mk (id : String) (ann : Option Annotation) (par : Option String)
    (vis col : Bool) (rc : Nat) (d : Int) (tc : Option Nat) (cs : List Thread) :
    subthreads (Thread.mk id ann par vis col rc d tc cs) =
      Thread.mk id ann par vis col rc d tc cs :: (cs.map subthreads).flatten := by
  rw [subthreads_eq]

/-- Claim C2: the claim states that an entry of `references` equal to the
annotation's own identity (`id` or else `$tag`) is dropped so that no
identity is ever its own ancestor.  The code only drops entries equal to
`id`: for the `$tag`-identified `selfTagAnn` the self-entry survives the
filter and the assembled thread graph records identity "t" with itself as
parent — its own ancestor. -/
theorem C2_selfTagBecomesOwnAncestor :
    filteredReferences selfTagAnn = ["t"] ∧
    (assembleThreads 8 [selfTagAnn]).map
      (fun threads => (getTh threads "t").map (fun n => n.parent)) =
      some (some (some "t")) := by
  exact ⟨rfl, rfl⟩

/-- Claim C3 counterexample: for annotations `cycA` (references `["b"]`) and
`cycB` (references `["a"]`) under default options, the strict descendants of
the root's only child "b" include "a" — A's thread IS a strict descendant of
B's thread, refuting "neither ... is a strict descendant of the other". -/
theorem C3_counterexample :
    (buildThread 8 [cycA, cycB] defaultOptions).map
      (fun t => t.children.map
        (fun c => (c.id, (strictDescendants c).map (fun s => s.id)))) =
      some [("b", ["a"])] := by
  have h0 : threadAnnotations 8 [cycA, cycB] =
      some (Thread.mk "root" none none true false 0 0 none
        [Thread.mk "b" (some cycB) none true true 0 0 none
          [Thread.mk "a" (some cycA) (some "b") true false 0 0 none []]]) := by rfl
  simp only [buildThread, h0]
  simp +decide [mapThread_mk, sortThread_mk, countRepliesAndDepth_mk, hasVisibleChildren_mk,
    subthreads_mk, strictDescendants, selectionStage, threadFilterStage, pruneStage, visibilityFn, collapseFn, sort, sortInsert,
    threadCompare, lookupExpanded, defaultOptions]

/-- Claim C3 (amended): given exactly the two mutually-referencing
annotations A and B, `buildThread` completes without unbounded recursion;
the first attachment processed (A under B) is kept, so A's thread is the
sole child of B's thread, while the reverse link is rejected by the cycle
guard — B's thread is not a descendant of A's. -/
theorem C3_cycleResolution :
    buildThread 8 [cycA, cycB] defaultOptions =
      some (Thread.mk "root" none none false false 2 (-1) (some 1)
        [Thread.mk "b" (some cycB) none true true 1 0 none
          [Thread.mk "a" (some cycA) (some "b") true false 0 1 none []]]) := by
  have h0 : threadAnnotations 8 [cycA, cycB] =
      some (Thread.mk "root" none none true false 0 0 none
        [Thread.mk "b" (some cycB) none true true 0 0 none
          [Thread.mk "a" (some cycA) (some "b") true false 0 0 none []]]) := by rfl
  simp only [buildThread, h0]
  simp +decide [mapThread_mk, sortThread_mk, countRepliesAndDepth_mk, hasVisibleChildren_mk,
    selectionStage, threadFilterStage, pruneStage, visibilityFn, collapseFn, sort, sortInsert, threadCompare, lookupExpanded,
    defaultOptions, cycA, cycB]

/-- Claim C6: for an input containing a reply whose last `references` entry
names the id "m" absent from the input list, `buildThread` with default
options produces exactly one placeholder thread with id "m", without an
annotation, carrying the reply as its child. -/
theorem C6_missingParentPlaceholder :
    (buildThread 8 [c6Reply] defaultOptions).map (fun t =>
      ((subthreads t).countP (fun s => s.id == "m"),
       (subthreads t).filterMap (fun s =>
         if s.id == "m" then some (s.anno.isNone, s.children.map (fun c => c.id))
         else none)))
      = some (1, [(true, ["r"])]) := by
  have h0 : threadAnnotations 8 [c6Reply] =
      some (Thread.mk "root" none none true false 0 0 none
        [Thread.mk "m" none none true true 0 0 none
          [Thread.mk "r" (some c6Reply) (some "m") true false 0 0 none []]]) := by rfl
  simp only [buildThread, h0]
  simp +decide [mapThread_mk, sortThread_mk, countRepliesAndDepth_mk, hasVisibleChildren_mk,
    subthreads_mk, selectionStage, threadFilterStage, pruneStage, visibilityFn, collapseFn, sort, sortInsert, threadCompare,
    lookupExpanded, defaultOptions]

/-- Claim C9 counterexample: with options whose `expanded` map carries an
entry for the id "root" (here `root ↦ false`), the returned root thread has
`collapsed = true`, refuting the claim for every choice of options. -/
theorem C9_counterexample :
    (buildThread 8 [] { expanded := [("root", false)] }).map
      (fun t => t.collapsed) = some true := by
  have h0 : threadAnnotations 8 [] =
      some (Thread.mk "root" none none true false 0 0 none []) := by rfl
  simp only [buildThread, h0]
  simp +decide [mapThread_mk, sortThread_mk, countRepliesAndDepth_mk, hasVisibleChildren_mk,
    selectionStage, threadFilterStage, pruneStage, visibilityFn, collapseFn, sort, sortInsert, threadCompare, lookupExpanded]

/-- Claim C10: the claim states that every immediate child of the root has
no `parent` field.  For an annotation whose `references` is `[""]`, the
returned root's children are the synthesized `""` placeholder and the
annotation's thread "x" — and "x" carries `parent = ""` while sitting at top
level (it also hangs below the placeholder), because an empty-string parent
is falsy for the root-collection test but was still assigned by
`setParent`. -/
theorem C10_rootChildWithParent :
    (buildThread 8 [emptyRefAnn] defaultOptions).map
      (fun t => t.children.map (fun c => (c.id, c.parent))) =
      some [("", none), ("x", some "")] := by
  have h0 : threadAnnotations 8 [emptyRefAnn] =
      some (Thread.mk "root" none none true false 0 0 none
        [Thread.mk "x" (some emptyRefAnn) (some "") true true 0 0 none [],
         Thread.mk "" none none true true 0 0 none
           [Thread.mk "x" (some emptyRefAnn) (some "") true true 0 0 none []]]) := by rfl
  simp only [buildThread, h0]
  simp +decide [mapThread_mk, sortThread_mk, countRepliesAndDepth_mk, hasVisibleChildren_mk,
    selectionStage, threadFilterStage, pruneStage, visibilityFn, collapseFn, sort, sortInsert, threadCompare, lookupExpanded,
    defaultOptions]

/-- Claim C1: the claim states that `buildThread` always completes and
never recurses without bound, even on circular `references`, for any
well-formed input (every annotation yields a non-empty identity).  The
input `[selfTagAnn, otherAnn]` is well formed (identities "t" and "y"),
yet processing `selfTagAnn` first makes thread "t" its own parent (its
`$tag` self-reference survives the id-only filter), and the subsequent
`hasPathToRoot` walk for "y" then revisits "t" forever: the embedding
returns `none` — non-termination — for every fuel bound. -/
theorem C1_divergesOnSelfReference :
    ∀ fuel, buildThread fuel [selfTagAnn, otherAnn] defaultOptions = none := by
  have key : ∀ m, hasPathToRoot selfLoopThreads "y" "t" m = none := by
    intro m
    induction m with
    | zero => rfl
    | succ n ih =>
      rw [show hasPathToRoot selfLoopThreads "y" "t" (n + 1) =
            hasPathToRoot selfLoopThreads "y" "t" n from rfl]
      exact ih
  intro fuel
  cases fuel with
  | zero => rfl
  | succ n =>
    have h2 : setParent (n + 1) selfLoopThreads "y" ["t"] = none := by
      rw [show setParent (n + 1) selfLoopThreads "y" ["t"] =
          (match hasPathToRoot selfLoopThreads "y" "t" (n + 1) with
           | none => (none : Option Threads)
           | some true =>
             some (modifyTh (modifyTh selfLoopThreads "y"
               (fun nd => { nd with parent := some "t" })) "t"
               (fun nd => { nd with childIds := nd.childIds ++ ["y"] }))
           | some false => some selfLoopThreads) from rfl]
      rw [key (n + 1)]
    have h3 : assembleThreads (n + 1) [selfTagAnn, otherAnn] = none := by
      rw [show assembleThreads (n + 1) [selfTagAnn, otherAnn] =
            (setParent (n + 1) selfLoopThreads "y" ["t"]).bind (fun m => some m) from rfl]
      rw [h2]
      rfl
    simp only [buildThread, threadAnnotations, h3]

/-- Claim C8: if the supplied `filterFn` rejects every annotation but
`forcedVisible` contains the `$tag` of the top-level annotation `fvX`, then
in the returned tree the thread of `fvX` has `visible = true` and is not
pruned (it is the only top-level thread left), while every other annotated
thread of the tree (here the reply "z") has `visible = false`. -/
theorem C8_forcedVisibleSurvives (f : Annotation → Bool) (hf : ∀ a, f a = false) :
    buildThread 8 [fvX, fvZ, fvY] (fvOptions f) = some fvExpected ∧
    fvExpected.children.map (fun c => (c.id, c.visible)) = [("x", true)] ∧
    (subthreads fvExpected).filterMap (fun s =>
      if s.anno.isSome && s.id != "x" then some s.visible else none) = [false] := by
  have hfeq : f = fun _ => false := funext hf
  subst hfeq
  refine ⟨?_, ?_, ?_⟩
  · have h0 : threadAnnotations 8 [fvX, fvZ, fvY] =
        some (Thread.mk "root" none none true false 0 0 none
          [Thread.mk "x" (some fvX) none true true 0 0 none
            [Thread.mk "z" (some fvZ) (some "x") true false 0 0 none []],
           Thread.mk "y" (some fvY) none true true 0 0 none []]) := by rfl
    simp only [buildThread, h0]
    simp +decide [mapThread_mk, sortThread_mk, countRepliesAndDepth_mk,
      hasVisibleChildren_mk, selectionStage, threadFilterStage, pruneStage, visibilityFn, collapseFn, sort, sortInsert, threadCompare,
      lookupExpanded, fvOptions, fvExpected, fvX, fvZ, fvY]
  · rfl
  · simp +decide [subthreads_mk, fvExpected, fvX, fvZ]

/-- Closed instance of C8 at the concrete all-rejecting filter. -/
theorem C8_forcedVisibleSurvives_witness :
    buildThread 8 [fvX, fvZ, fvY] (fvOptions (fun _ => false)) = some fvExpected :=
  (C8_forcedVisibleSurvives (fun _ => false) (fun _ => rfl)).1

theorem sortInsert_perm (cmp : Annotation → Annotation → Bool) (l : List Thread)
    (x : Thread) : (sortInsert cmp l x).Perm (x :: l) := by
  induction l with
  | nil => simp [sortInsert]
  | cons y ys ih =>
    rw [sortInsert]
    by_cases hc : threadCompare cmp x y < 0
    · simp [hc]
    · simp only [if_neg hc]
      exact (ih.cons y).trans (List.Perm.swap x y ys)

theorem sort_perm_aux (cmp : Annotation → Annotation → Bool) :
    ∀ (l acc : List Thread), (l.foldl (sortInsert cmp) acc).Perm (acc ++ l) := by
  intro l
  induction l with
  | nil => simp
  | cons x xs ih =>
    intro acc
    have h1 : (xs.foldl (sortInsert cmp) (sortInsert cmp acc x)).Perm
        ((sortInsert cmp acc x) ++ xs) := ih (sortInsert cmp acc x)
    refine h1.trans ?_
    refine (((sortInsert_perm cmp acc x).append_right xs).trans ?_)
    exact List.perm_middle.symm

theorem sort_perm (cmp : Annotation → Annotation → Bool) (l : List Thread) :
    (sort l cmp).Perm l := by
  simpa using sort_perm_aux cmp l []

theorem sortInsert_annotated (cmp : Annotation → Annotation → Bool) :
    ∀ (P A : List Thread) (x : Thread), (∀ t ∈ P, t.anno = none) →
      x.anno.isSome → sortInsert cmp (P ++ A) x = P ++ sortInsert cmp A x := by
  intro P
  induction P with
  | nil => intro A x _ _; simp
  | cons p P2 ih =>
    intro A x hP hx
    obtain ⟨xa, hxa⟩ := Option.isSome_iff_exists.mp hx
    have hp : p.anno = none := hP p (List.mem_cons_self p P2)
    have hcmp : threadCompare cmp x p = 1 := by
      simp [threadCompare, hxa, hp]
    rw [List.cons_append, sortInsert, hcmp]
    simp only [show ¬((1 : Int) < 0) by omega, if_false]
    rw [ih A x (fun t ht => hP t (List.mem_cons_of_mem p ht)) hx]
    rfl

theorem sortInsert_placeholder (cmp : Annotation → Annotation → Bool) :
    ∀ (P A : List Thread) (x : Thread), (∀ t ∈ P, t.anno = none) →
      (∀ t ∈ A, t.anno.isSome) → x.anno = none →
      sortInsert cmp (P ++ A) x = P ++ x :: A := by
  intro P
  induction P with
  | nil =>
    intro A x _ hA hx
    cases A with
    | nil => simp [sortInsert]
    | cons a as =>
      obtain ⟨aa, haa⟩ := Option.isSome_iff_exists.mp (hA a (List.mem_cons_self a as))
      have hcmp : threadCompare cmp x a = -1 := by
        simp [threadCompare, hx, haa]
      simp [sortInsert, hcmp]
  | cons p P2 ih =>
    intro A x hP hA hx
    have hp : p.anno = none := hP p (List.mem_cons_self p P2)
    have hcmp : threadCompare cmp x p = 0 := by
      simp [threadCompare, hx, hp]
    rw [List.cons_append, sortInsert, hcmp]
    simp only [show ¬((0 : Int) < 0) by omega, if_false]
    rw [ih A x (fun t ht => hP t (List.mem_cons_of_mem p ht)) hA hx]
    rfl

theorem sort_decomp_aux (cmp : Annotation → Annotation → Bool) :
    ∀ (l P A : List Thread), (∀ t ∈ P, t.anno = none) → (∀ t ∈ A, t.anno.isSome) →
      l.foldl (sortInsert cmp) (P ++ A) =
        (P ++ l.filter (fun t => t.anno.isNone)) ++
          (l.filter (fun t => t.anno.isSome)).foldl (sortInsert cmp) A := by
  intro l
  induction l with
  | nil => intro P A _ _; simp
  | cons x xs ih =>
    intro P A hP hA
    cases hx : x.anno with
    | none =>
      have hstep : sortInsert cmp (P ++ A) x = (P ++ [x]) ++ A := by
        rw [sortInsert_placeholder cmp P A x hP hA hx]
        simp
      rw [List.foldl_cons, hstep,
        ih (P ++ [x]) A (by
          intro t ht
          rcases List.mem_append.mp ht with h1 | h1
          · exact hP t h1
          · simpa [List.mem_singleton.mp h1] using hx) hA]
      have hxn : x.anno.isNone = true := by simp [hx]
      have hxs : x.anno.isSome = false := by simp [hx]
      simp [List.filter_cons, hxn, hxs]
    | some xa =>
      have hxsome : x.anno.isSome := by simp [hx]
      have hstep : sortInsert cmp (P ++ A) x = P ++ sortInsert cmp A x :=
        sortInsert_annotated cmp P A x hP hxsome
      rw [List.foldl_cons, hstep,
        ih P (sortInsert cmp A x) hP (by
          intro t ht
          rcases List.mem_cons.mp ((sortInsert_perm cmp A x).mem_iff.mp ht) with h1 | h1
          · rw [h1]; exact hxsome
          · exact hA t h1)]
      have hxn : x.anno.isNone = false := by simp [hx]
      have hxs : x.anno.isSome = true := by simp [hx]
      simp [List.filter_cons, hxn, hxs]

theorem sort_decomposition (cmp : Annotation → Annotation → Bool) (l : List Thread) :
    sort l cmp = l.filter (fun t => t.anno.isNone) ++
      sort (l.filter (fun t => t.anno.isSome)) cmp := by
  have h := sort_decomp_aux cmp l [] [] (by simp) (by simp)
  simpa [sort] using h

theorem sortInsert_ties (cmp : Annotation → Annotation → Bool)
    (hcmp : ∀ x y, cmp x y = false) :
    ∀ (l : List Thread) (x : Thread), (∀ t ∈ l, t.anno.isSome) → x.anno.isSome →
      sortInsert cmp l x = l ++ [x] := by
  intro l
  induction l with
  | nil => intro x _ _; rfl
  | cons y ys ih =>
    intro x hl hx
    obtain ⟨xa, hxa⟩ := Option.isSome_iff_exists.mp hx
    obtain ⟨ya, hya⟩ := Option.isSome_iff_exists.mp (hl y (List.mem_cons_self y ys))
    have hc : threadCompare cmp x y = 0 := by
      simp [threadCompare, hxa, hya, hcmp]
    rw [sortInsert, hc]
    simp only [show ¬((0 : Int) < 0) by omega, if_false]
    rw [ih x (fun t ht => hl t (List.mem_cons_of_mem y ht)) hx]
    rfl

theorem sort_ties_aux (cmp : Annotation → Annotation → Bool)
    (hcmp : ∀ x y, cmp x y = false) :
    ∀ (l acc : List Thread), (∀ t ∈ acc, t.anno.isSome) → (∀ t ∈ l, t.anno.isSome) →
      l.foldl (sortInsert cmp) acc = acc ++ l := by
  intro l
  induction l with
  | nil => intro acc _ _; simp
  | cons x xs ih =>
    intro acc hacc hl
    have hx : x.anno.isSome := hl x (List.mem_cons_self x xs)
    rw [List.foldl_cons, sortInsert_ties cmp hcmp acc x hacc hx,
      ih (acc ++ [x]) (by
        intro t ht
        rcases List.mem_append.mp ht with h1 | h1
        · exact hacc t h1
        · simpa [List.mem_singleton.mp h1] using hx)
        (fun t ht => hl t (List.mem_cons_of_mem x ht))]
    simp

theorem sort_ties (cmp : Annotation → Annotation → Bool) (l : List Thread)
    (hl : ∀ t ∈ l, t.anno.isSome) (hcmp : ∀ x y, cmp x y = false) :
    sort l cmp = l := by
  simpa [sort] using sort_ties_aux cmp hcmp l [] (by simp) hl

/-- Claim C7: the sort contract of every sorted children list.  (i) sorting
permutes the list; (ii) the result is exactly the placeholder threads (no
annotation), stable in their original order, followed by the sorted
annotated threads — so placeholders always come first; (iii) the pairwise
comparator puts a placeholder before an annotated thread, treats two
placeholders as equal, and orders two annotated threads by `cmp(a,b)` then
`cmp(b,a)`; (iv) ties are stable: an everywhere-false `cmp` leaves an
all-annotated list unchanged; (v) with the default top-level comparator,
top-level tags "b","a" come out ["a","b"], and below top level the default
reply comparator orders the earlier-created "r2" before "r1". -/
theorem C7_sortContract :
    (∀ (cmp : Annotation → Annotation → Bool) (l : List Thread), (sort l cmp).Perm l) ∧
    (∀ (cmp : Annotation → Annotation → Bool) (l : List Thread),
      sort l cmp = l.filter (fun t => t.anno.isNone) ++
        sort (l.filter (fun t => t.anno.isSome)) cmp) ∧
    (∀ (cmp : Annotation → Annotation → Bool) (a b : Thread),
      (a.anno = none → b.anno.isSome → threadCompare cmp a b = -1) ∧
      (a.anno = none → b.anno = none → threadCompare cmp a b = 0) ∧
      (∀ x y, a.anno = some x → b.anno = some y →
        threadCompare cmp a b =
          if cmp x y then -1 else if cmp y x then 1 else 0)) ∧
    (∀ (cmp : Annotation → Annotation → Bool) (l : List Thread),
      (∀ t ∈ l, t.anno.isSome) → (∀ x y, cmp x y = false) → sort l cmp = l) ∧
    ((buildThread 8 [tagB, tagA] defaultOptions).map
      (fun t => t.children.map (fun c => c.id)) = some ["a", "b"]) ∧
    ((buildThread 8 [repP, repR1, repR2] defaultOptions).map
      (fun t => t.children.map (fun c => c.children.map (fun d => d.id))) =
      some [["r2", "r1"]]) := by
  refine ⟨sort_perm, sort_decomposition, ?_, sort_ties, ?_, ?_⟩
  · intro cmp a b
    refine ⟨?_, ?_, ?_⟩
    · intro ha hb
      obtain ⟨ba, hba⟩ := Option.isSome_iff_exists.mp hb
      simp [threadCompare, ha, hba]
    · intro ha hb
      simp [threadCompare, ha, hb]
    · intro x y hx hy
      simp [threadCompare, hx, hy]
  · have h0 : threadAnnotations 8 [tagB, tagA] =
        some (Thread.mk "root" none none true false 0 0 none
          [Thread.mk "b" (some tagB) none true true 0 0 none [],
           Thread.mk "a" (some tagA) none true true 0 0 none []]) := by rfl
    simp only [buildThread, h0]
    simp +decide [mapThread_mk, sortThread_mk, countRepliesAndDepth_mk,
      hasVisibleChildren_mk, selectionStage, threadFilterStage, pruneStage, visibilityFn, collapseFn, sort, sortInsert, threadCompare,
      lookupExpanded, defaultOptions, tagA, tagB]
  · have h0 : threadAnnotations 8 [repP, repR1, repR2] =
        some (Thread.mk "root" none none true false 0 0 none
          [Thread.mk "p" (some repP) none true true 0 0 none
            [Thread.mk "r1" (some repR1) (some "p") true false 0 0 none [],
             Thread.mk "r2" (some repR2) (some "p") true false 0 0 none []]]) := by rfl
    simp only [buildThread, h0]
    simp +decide [mapThread_mk, sortThread_mk, countRepliesAndDepth_mk,
      hasVisibleChildren_mk, selectionStage, threadFilterStage, pruneStage, visibilityFn, collapseFn, sort, sortInsert, threadCompare,
      lookupExpanded, defaultOptions, repP, repR1, repR2]

/-- Closed instance of C7: an everywhere-false comparator leaves a
one-element annotated list unchanged. -/
theorem C7_sortContract_witness :
    sort [Thread.mk "w" (some tagA) none true false 0 0 none []] (fun _ _ => false) =
      [Thread.mk "w" (some tagA) none true false 0 0 none []] := by
  refine C7_sortContract.2.2.2.1 (fun _ _ => false)
    [Thread.mk "w" (some tagA) none true false 0 0 none []] ?_ (fun _ _ => rfl)
  intro t ht
  rw [List.mem_singleton.mp ht]
  rfl

theorem replyFoldSum (l : List Thread) :
    ∀ n : Nat, l.foldl (fun total child => total + 1 + child.replyCount) n =
      n + (l.map (fun c => 1 + c.replyCount)).sum := by
  induction l with
  | nil => intro n; simp
  | cons x xs ih =>
    intro n
    rw [List.foldl_cons, ih]
    simp
    omega

theorem subthreads_length (t : Thread) :
    (subthreads t).length = 1 + (strictDescendants t).length := by
  rw [subthreads_eq]
  simp [strictDescendants, Nat.add_comm]

theorem countReplies_head : ∀ t : Thread, ∀ d : Int,
    (countRepliesAndDepth t d).replyCount =
      (strictDescendants (countRepliesAndDepth t d)).length := by
  refine threadInd (fun t => ∀ d : Int,
    (countRepliesAndDepth t d).replyCount =
      (strictDescendants (countRepliesAndDepth t d)).length) ?_
  intro t ih d
  rw [countRepliesAndDepth_eq]
  simp only [strictDescendants]
  rw [replyFoldSum _ 0, List.length_flatten]
  simp only [List.map_map, Nat.zero_add]
  congr 1
  apply List.map_congr_left
  intro x hx
  simp only [Function.comp]
  rw [subthreads_length, ih x hx (d + 1)]

theorem countReplies_all : ∀ t : Thread, ∀ (d : Int) (s : Thread),
    s ∈ subthreads (countRepliesAndDepth t d) →
      s.replyCount = (strictDescendants s).length ∧
      s.replyCount = (s.children.map (fun c => 1 + c.replyCount)).sum := by
  refine threadInd (fun t => ∀ (d : Int) (s : Thread),
    s ∈ subthreads (countRepliesAndDepth t d) →
      s.replyCount = (strictDescendants s).length ∧
      s.replyCount = (s.children.map (fun c => 1 + c.replyCount)).sum) ?_
  intro t ih d s hs
  rw [subthreads_eq] at hs
  rcases List.mem_cons.mp hs with h1 | h1
  · constructor
    · rw [h1]
      exact countReplies_head t d
    · rw [h1]
      rw [countRepliesAndDepth_eq]
      simp only
      rw [replyFoldSum _ 0, Nat.zero_add]
  · rw [countRepliesAndDepth_eq] at h1
    simp only [List.mem_flatten, List.mem_map] at h1
    obtain ⟨sub, ⟨x, ⟨c, hc, hcx⟩, hxsub⟩, hssub⟩ := h1
    refine ih c hc (d + 1) s ?_
    rw [← hxsub] at hssub
    rw [← hcx] at hssub
    exact hssub

theorem countDepth_head (t : Thread) (d : Int) :
    (countRepliesAndDepth t d).depth = d := by
  rw [countRepliesAndDepth_eq]

theorem countDepth_children (t : Thread) (d : Int) :
    ∀ c ∈ (countRepliesAndDepth t d).children, c.depth = d + 1 := by
  rw [countRepliesAndDepth_eq]
  simp only
  intro c hc
  obtain ⟨x, _, rfl⟩ := List.mem_map.mp hc
  exact countDepth_head x (d + 1)

theorem countDepth_all : ∀ t : Thread, ∀ (d : Int) (s : Thread),
    s ∈ subthreads (countRepliesAndDepth t d) →
      ∀ c ∈ s.children, c.depth = s.depth + 1 := by
  refine threadInd (fun t => ∀ (d : Int) (s : Thread),
    s ∈ subthreads (countRepliesAndDepth t d) →
      ∀ c ∈ s.children, c.depth = s.depth + 1) ?_
  intro t ih d s hs
  rw [subthreads_eq] at hs
  rcases List.mem_cons.mp hs with h1 | h1
  · intro c hc
    rw [h1] at hc ⊢
    rw [countDepth_head]
    exact countDepth_children t d c hc
  · rw [countRepliesAndDepth_eq] at h1
    simp only [List.mem_flatten, List.mem_map] at h1
    obtain ⟨sub, ⟨x, ⟨c, hc, hcx⟩, hxsub⟩, hssub⟩ := h1
    refine ih c hc (d + 1) s ?_
    rw [← hxsub] at hssub
    rw [← hcx] at hssub
    exact hssub

theorem subthreads_update_tc (t : Thread) (v : Option Nat) :
    subthreads { t with totalChildren := v } =
      { t with totalChildren := v } :: strictDescendants t := by
  rw [subthreads_eq]
  rfl

theorem buildThread_shape (fuel : Nat) (anns : List Annotation) (opts : Options)
    (t : Thread) (h : buildThread fuel anns opts = some t) :
    ∃ u : Thread, t = { countRepliesAndDepth u (-1) with
      totalChildren := some (countRepliesAndDepth u (-1)).children.length } := by
  cases hta : threadAnnotations fuel anns with
  | none =>
    rw [buildThread, hta] at h
    exact absurd h (by simp)
  | some t0 =>
    rw [buildThread, hta] at h
    simp only at h
    exact ⟨_, (Option.some.inj h).symm⟩

/-- Evaluation of the three-level chain under default options. -/
theorem chainEval :
    buildThread 8 [chainA1, chainA2, chainA3] defaultOptions = some chainExpected := by
  have h0 : threadAnnotations 8 [chainA1, chainA2, chainA3] =
      some (Thread.mk "root" none none true false 0 0 none
        [Thread.mk "a1" (some chainA1) none true true 0 0 none
          [Thread.mk "a2" (some chainA2) (some "a1") true false 0 0 none
            [Thread.mk "a3" (some chainA3) (some "a2") true false 0 0 none []]]]) := by rfl
  simp only [buildThread, h0]
  simp +decide [mapThread_mk, sortThread_mk, countRepliesAndDepth_mk, hasVisibleChildren_mk,
    selectionStage, threadFilterStage, pruneStage, visibilityFn, collapseFn, sort, sortInsert, threadCompare, lookupExpanded,
    defaultOptions, chainExpected, chainA1, chainA2, chainA3]

/-- Claim C4: in every tree returned by `buildThread`, the `replyCount` of
every node (including the root) equals the total number of that node's
strict descendants, equivalently the sum over its children of
`1 + child.replyCount`. -/
theorem C4_replyCount (fuel : Nat) (anns : List Annotation) (opts : Options)
    (t : Thread) (h : buildThread fuel anns opts = some t) :
    ∀ s ∈ subthreads t,
      s.replyCount = (strictDescendants s).length ∧
      s.replyCount = (s.children.map (fun c => 1 + c.replyCount)).sum := by
  obtain ⟨u, rfl⟩ := buildThread_shape fuel anns opts t h
  intro s hs
  rw [subthreads_update_tc] at hs
  rcases List.mem_cons.mp hs with h1 | h1
  · subst h1
    exact countReplies_all u (-1) (countRepliesAndDepth u (-1))
      (by rw [subthreads_eq]; exact List.mem_cons_self _ _)
  · refine countReplies_all u (-1) s ?_
    rw [subthreads_eq]
    exact List.mem_cons_of_mem _ h1

/-- Closed instance of C4 at the three-level chain: the root of the
returned tree counts its three strict descendants. -/
theorem C4_replyCount_witness :
    chainExpected.replyCount = (strictDescendants chainExpected).length :=
  (C4_replyCount 8 [chainA1, chainA2, chainA3] defaultOptions chainExpected chainEval
    chainExpected (by rw [subthreads_eq]; exact List.mem_cons_self _ _)).1

/-- Claim C5: in every tree returned by `buildThread`, each child's `depth`
is its parent's `depth` plus 1, with the root at depth -1 (so top-level
threads sit at depth 0); in particular the three-level chain yields depths
0, 1, 2. -/
theorem C5_depth :
    (∀ (fuel : Nat) (anns : List Annotation) (opts : Options) (t : Thread),
      buildThread fuel anns opts = some t →
        t.depth = -1 ∧ ∀ s ∈ subthreads t, ∀ c ∈ s.children, c.depth = s.depth + 1) ∧
    ((buildThread 8 [chainA1, chainA2, chainA3] defaultOptions).map
      (fun t => t.children.map (fun c => (c.depth,
        c.children.map (fun c2 => (c2.depth, c2.children.map (fun c3 => c3.depth)))))) =
      some [(0, [(1, [2])])]) := by
  constructor
  · intro fuel anns opts t h
    obtain ⟨u, rfl⟩ := buildThread_shape fuel anns opts t h
    refine ⟨countDepth_head u (-1), ?_⟩
    intro s hs
    rw [subthreads_update_tc] at hs
    rcases List.mem_cons.mp hs with h1 | h1
    · subst h1
      intro c hc
      exact countDepth_all u (-1) (countRepliesAndDepth u (-1))
        (by rw [subthreads_eq]; exact List.mem_cons_self _ _) c hc
    · refine countDepth_all u (-1) s ?_
      rw [subthreads_eq]
      exact List.mem_cons_of_mem _ h1
  · rw [chainEval]
    rfl

/-- Closed instance of C5 at the three-level chain: the returned root has
depth -1. -/
theorem C5_depth_witness :
    chainExpected.depth = -1 :=
  (C5_depth.1 8 [chainA1, chainA2, chainA3] defaultOptions chainExpected chainEval).1

theorem mapThread_visible (t : Thread) (f : Thread → Thread) :
    (mapThread t f).visible = (f t).visible := by rw [mapThread_eq]

theorem mapThread_collapsed (t : Thread) (f : Thread → Thread) :
    (mapThread t f).collapsed = (f t).collapsed := by rw [mapThread_eq]

theorem mapThread_id (t : Thread) (f : Thread → Thread) :
    (mapThread t f).id = (f t).id := by rw [mapThread_eq]

theorem mapThread_anno (t : Thread) (f : Thread → Thread) :
    (mapThread t f).anno = (f t).anno := by rw [mapThread_eq]

theorem sortThread_visible (t : Thread) (c r : Annotation → Annotation → Bool) :
    (sortThread t c r).visible = t.visible := by rw [sortThread_eq]

theorem sortThread_collapsed (t : Thread) (c r : Annotation → Annotation → Bool) :
    (sortThread t c r).collapsed = t.collapsed := by rw [sortThread_eq]

theorem countRAD_visible (t : Thread) (d : Int) :
    (countRepliesAndDepth t d).visible = t.visible := by rw [countRepliesAndDepth_eq]

theorem countRAD_collapsed (t : Thread) (d : Int) :
    (countRepliesAndDepth t d).collapsed = t.collapsed := by rw [countRepliesAndDepth_eq]

theorem visibilityFn_id (o : Options) (t : Thread) :
    (visibilityFn o t).id = t.id := rfl

theorem visibilityFn_anno (o : Options) (t : Thread) :
    (visibilityFn o t).anno = t.anno := rfl

theorem visibilityFn_collapsed (o : Options) (t : Thread) :
    (visibilityFn o t).collapsed = t.collapsed := rfl

theorem visibilityFn_noAnno (o : Options) (t : Thread) (h : t.anno = none) :
    (visibilityFn o t).visible = false := by
  simp [visibilityFn, h]

theorem collapseFn_visible (o : Options) (t : Thread) :
    (collapseFn o t).visible = t.visible := by
  rw [collapseFn]
  cases lookupExpanded o.expanded t.id <;> rfl

theorem collapseFn_collapsed_of_not_expanded (o : Options) (t : Thread)
    (h : lookupExpanded o.expanded t.id = none) :
    (collapseFn o t).collapsed =
      (t.collapsed && !(o.filterFn.isSome && hasVisibleChildren t)) := by
  rw [collapseFn, h]

theorem threadAnnotations_root (fuel : Nat) (anns : List Annotation) (t : Thread)
    (h : threadAnnotations fuel anns = some t) :
    t.id = "root" ∧ t.anno = none ∧ t.visible = true ∧ t.collapsed = false := by
  rw [threadAnnotations] at h
  split at h
  · exact absurd h (by simp)
  · simp only at h
    split at h
    · exact absurd h (by simp)
    · obtain rfl := Option.some.inj h
      exact ⟨rfl, rfl, rfl, rfl⟩

theorem update_tc_visible (t : Thread) (v : Option Nat) :
    ({ t with totalChildren := v } : Thread).visible = t.visible := rfl

theorem update_tc_collapsed (t : Thread) (v : Option Nat) :
    ({ t with totalChildren := v } : Thread).collapsed = t.collapsed := rfl

theorem update_children_id (t : Thread) (cs : List Thread) :
    ({ t with children := cs } : Thread).id = t.id := rfl

theorem update_children_anno (t : Thread) (cs : List Thread) :
    ({ t with children := cs } : Thread).anno = t.anno := rfl

theorem update_children_visible (t : Thread) (cs : List Thread) :
    ({ t with children := cs } : Thread).visible = t.visible := rfl

theorem update_children_collapsed (t : Thread) (cs : List Thread) :
    ({ t with children := cs } : Thread).collapsed = t.collapsed := rfl


theorem selectionStage_id (o : Options) (t : Thread) :
    (selectionStage o t).id = t.id := by
  rw [selectionStage]
  split <;> rfl

theorem selectionStage_anno (o : Options) (t : Thread) :
    (selectionStage o t).anno = t.anno := by
  rw [selectionStage]
  split <;> rfl

theorem selectionStage_visible (o : Options) (t : Thread) :
    (selectionStage o t).visible = t.visible := by
  rw [selectionStage]
  split <;> rfl

theorem selectionStage_collapsed (o : Options) (t : Thread) :
    (selectionStage o t).collapsed = t.collapsed := by
  rw [selectionStage]
  split <;> rfl

theorem threadFilterStage_id (o : Options) (t : Thread) :
    (threadFilterStage o t).id = t.id := by
  rw [threadFilterStage]
  cases o.threadFilterFn <;> rfl

theorem threadFilterStage_anno (o : Options) (t : Thread) :
    (threadFilterStage o t).anno = t.anno := by
  rw [threadFilterStage]
  cases o.threadFilterFn <;> rfl

theorem threadFilterStage_visible (o : Options) (t : Thread) :
    (threadFilterStage o t).visible = t.visible := by
  rw [threadFilterStage]
  cases o.threadFilterFn <;> rfl

theorem threadFilterStage_collapsed (o : Options) (t : Thread) :
    (threadFilterStage o t).collapsed = t.collapsed := by
  rw [threadFilterStage]
  cases o.threadFilterFn <;> rfl

theorem pruneStage_id (t : Thread) : (pruneStage t).id = t.id := rfl

theorem pruneStage_anno (t : Thread) : (pruneStage t).anno = t.anno := rfl

theorem pruneStage_visible (t : Thread) : (pruneStage t).visible = t.visible := rfl

theorem pruneStage_collapsed (t : Thread) : (pruneStage t).collapsed = t.collapsed := rfl

/-- Claim C9 (amended): for every input and every options whose `expanded`
map has no entry for the id "root", the root thread returned by
`buildThread` has `visible = false` — the visibility pass marks the
annotation-less synthetic root invisible — and `collapsed = false`. -/
theorem C9_rootFlags (fuel : Nat) (anns : List Annotation) (opts : Options) (t : Thread)
    (hexp : lookupExpanded opts.expanded "root" = none)
    (h : buildThread fuel anns opts = some t) :
    t.visible = false ∧ t.collapsed = false := by
  cases hta : threadAnnotations fuel anns with
  | none =>
    rw [buildThread, hta] at h
    exact absurd h (by simp)
  | some t0 =>
    obtain ⟨hid, hanno, hvis, hcol⟩ := threadAnnotations_root fuel anns t0 hta
    rw [buildThread, hta] at h
    simp only at h
    obtain rfl := (Option.some.inj h).symm
    have hid2 : (threadFilterStage opts (selectionStage opts t0)).id = "root" := by
      rw [threadFilterStage_id, selectionStage_id, hid]
    have hanno2 : (threadFilterStage opts (selectionStage opts t0)).anno = none := by
      rw [threadFilterStage_anno, selectionStage_anno, hanno]
    have hcol2 : (threadFilterStage opts (selectionStage opts t0)).collapsed = false := by
      rw [threadFilterStage_collapsed, selectionStage_collapsed, hcol]
    have hid4 : (pruneStage (mapThread (threadFilterStage opts (selectionStage opts t0))
        (visibilityFn opts))).id = "root" := by
      rw [pruneStage_id, mapThread_id, visibilityFn_id, hid2]
    have hvis4 : (pruneStage (mapThread (threadFilterStage opts (selectionStage opts t0))
        (visibilityFn opts))).visible = false := by
      rw [pruneStage_visible, mapThread_visible, visibilityFn_noAnno opts _ hanno2]
    have hcol4 : (pruneStage (mapThread (threadFilterStage opts (selectionStage opts t0))
        (visibilityFn opts))).collapsed = false := by
      rw [pruneStage_collapsed, mapThread_collapsed, visibilityFn_collapsed, hcol2]
    constructor
    · rw [update_tc_visible, countRAD_visible, sortThread_visible, mapThread_visible,
        collapseFn_visible, hvis4]
    · rw [update_tc_collapsed, countRAD_collapsed, sortThread_collapsed,
        mapThread_collapsed,
        collapseFn_collapsed_of_not_expanded opts _ (by rw [hid4]; exact hexp), hcol4]
      rfl

/-- Closed instance of C9: the empty input under default options yields a
root with `visible = false` and `collapsed = false`. -/
theorem C9_rootFlags_witness :
    ((buildThread 8 ([] : List Annotation) defaultOptions).getD dummyThread).visible
        = false ∧
      ((buildThread 8 ([] : List Annotation) defaultOptions).getD dummyThread).collapsed
        = false := by
  refine C9_rootFlags 8 [] defaultOptions _ rfl ?_
  have h0 : threadAnnotations 8 ([] : List Annotation) =
      some (Thread.mk "root" none none true false 0 0 none []) := by rfl
  simp only [buildThread, h0]
  simp +decide [mapThread_mk, sortThread_mk, countRepliesAndDepth_mk, hasVisibleChildren_mk,
    selectionStage, threadFilterStage, pruneStage, visibilityFn, collapseFn, sort,
    sortInsert, threadCompare, lookupExpanded, defaultOptions]
